import Mathlib

/-!
# KiCad: page-layout selection helpers and the marker record

A shallow embedding of `pagelayout_editor/tools/selection.cpp` and of the inline
members of `include/marker_base.h`.

Coordinates are C++ `int`s.  They are embedded as `Int`: the selection code compares
coordinates and never does arithmetic on them, and the rectangle arithmetic it calls
lives in headers that are not part of the sources at hand (signed overflow there is
undefined behaviour, so the embedding speaks of the defined executions).

The drawable items a selection refers to are kept abstract: `Item` is the type of the
references stored in `m_items`, and the virtual `GetBoundingBox()` of an item is a
function `bboxOf : Item → EDA_RECT` passed to every operation that calls it.
-/

set_option linter.unusedVariables false

/-! ## Geometry used by the two sources -/

/-- Integer point of the GUI toolkit (`wxPoint`). -/
structure wxPoint where
  x : Int
  y : Int
deriving DecidableEq, Repr

/-- Integer size of the GUI toolkit (`wxSize`). -/
structure wxSize where
  x : Int
  y : Int
deriving DecidableEq, Repr

/-- Integer vector `VECTOR2I`, the point type of the tool framework. -/
structure VECTOR2I where
  x : Int
  y : Int
deriving DecidableEq, Repr

/-- The conversion `static_cast<VECTOR2I>( wxPoint )` used by `GetPosition` and
`GetCenter`: it keeps both coordinates. -/
def VECTOR2I.ofWxPoint (p : wxPoint) : VECTOR2I := ⟨p.x, p.y⟩

/-- Modelled from the spec: the type `EDA_RECT` comes from `eda_rect.h`, which is not
among the sources.  The spec calls it an axis-aligned rectangle; it is kept as an origin
and a size, the size being allowed to be negative as for any pair of `int`s. -/
structure EDA_RECT where
  m_Pos : wxPoint
  m_Size : wxSize
deriving DecidableEq, Repr

namespace EDA_RECT

/-- Default-constructed rectangle (`EDA_RECT bbox;`). -/
instance : Inhabited EDA_RECT := ⟨⟨⟨0, 0⟩, ⟨0, 0⟩⟩⟩

/-- Modelled from the spec: `EDA_RECT::GetPosition` (from `eda_rect.h`, absent), the origin
of the rectangle. -/
def GetPosition (r : EDA_RECT) : wxPoint := r.m_Pos

/-- Modelled from the spec: `EDA_RECT::GetLeft` (from `eda_rect.h`, absent), the
"left x" of the spec: the x of the origin. -/
def GetLeft (r : EDA_RECT) : Int := r.m_Pos.x

/-- Modelled from the spec: `EDA_RECT::GetTop` (from `eda_rect.h`, absent), the
"top y" of the spec: the y of the origin. -/
def GetTop (r : EDA_RECT) : Int := r.m_Pos.y

/-- Modelled from the spec: `EDA_RECT::GetRight` (from `eda_rect.h`, absent): origin x plus
width. -/
def GetRight (r : EDA_RECT) : Int := r.m_Pos.x + r.m_Size.x

/-- Modelled from the spec: `EDA_RECT::GetBottom` (from `eda_rect.h`, absent): origin y
plus height. -/
def GetBottom (r : EDA_RECT) : Int := r.m_Pos.y + r.m_Size.y

/-- Modelled from the spec: `EDA_RECT::Centre` (from `eda_rect.h`, absent), the centre of
the rectangle: the origin moved by half the size, halves rounded down. -/
def Centre (r : EDA_RECT) : wxPoint :=
  ⟨r.m_Pos.x + r.m_Size.x / 2, r.m_Pos.y + r.m_Size.y / 2⟩

/-- Smallest x covered by the rectangle, whatever the sign of its width. -/
def minX (r : EDA_RECT) : Int := min r.GetLeft r.GetRight

/-- Largest x covered by the rectangle, whatever the sign of its width. -/
def maxX (r : EDA_RECT) : Int := max r.GetLeft r.GetRight

/-- Smallest y covered by the rectangle, whatever the sign of its height. -/
def minY (r : EDA_RECT) : Int := min r.GetTop r.GetBottom

/-- Largest y covered by the rectangle, whatever the sign of its height. -/
def maxY (r : EDA_RECT) : Int := max r.GetTop r.GetBottom

/-- Modelled from the spec: `EDA_RECT::Merge` (from `eda_rect.h`, absent).  The spec has
`GetBoundingBox` "merge every item's bounding box" into "the union of all member bounding
boxes": merging grows the receiver to the smallest axis-aligned rectangle that holds both
the receiver and the argument, a rectangle of negative width or height standing for the
area it spans.  The result has its origin at the top left and a non-negative size. -/
def Merge (r aRect : EDA_RECT) : EDA_RECT :=
  let left := min r.minX aRect.minX
  let top := min r.minY aRect.minY
  let right := max r.maxX aRect.maxX
  let bottom := max r.maxY aRect.maxY
  ⟨⟨left, top⟩, ⟨right - left, bottom - top⟩⟩

/-- The rectangle `r` encloses the rectangle `s`: the area spanned by `s` lies within the
area spanned by `r`. -/
def Encloses (r s : EDA_RECT) : Prop :=
  r.minX ≤ s.minX ∧ s.maxX ≤ r.maxX ∧ r.minY ≤ s.minY ∧ s.maxY ≤ r.maxY

instance (r s : EDA_RECT) : Decidable (r.Encloses s) := by
  unfold Encloses; infer_instance

/-- A rectangle whose width and height are both non-negative. -/
def IsNormalized (r : EDA_RECT) : Prop := 0 ≤ r.m_Size.x ∧ 0 ≤ r.m_Size.y

instance (r : EDA_RECT) : Decidable r.IsNormalized := by
  unfold IsNormalized; infer_instance

end EDA_RECT

/-- Modelled from the spec: the type `BOX2I` comes from `math/box2.h`, which is not among
the sources; an origin and a size over `VECTOR2I`. -/
structure BOX2I where
  m_Pos : VECTOR2I
  m_Size : VECTOR2I
deriving DecidableEq, Repr

/-- Default-constructed box (`BOX2I r;`). -/
instance : Inhabited BOX2I := ⟨⟨⟨0, 0⟩, ⟨0, 0⟩⟩⟩

/-! ## `SELECTION` (pagelayout_editor/tools/selection.cpp) -/

/-- The part of `SELECTION` the helpers read: the ordered collection `m_items` of item
references.  References are never null. -/
structure SELECTION (Item : Type) where
  m_items : List Item

namespace SELECTION

variable {Item : Type}

/-- Method `SELECTION::Front`, made total: the first reference of `m_items`, or nothing when the
selection is empty. -/
def Front (self : SELECTION Item) : Option Item := self.m_items.head?

/-- Method `SELECTION::GetBoundingBox`.  The box starts as the bounding box of the front item;
the iterator starts at `begin()`, is advanced once, and every remaining item's bounding
box is merged in.  Dereferencing the front of an empty selection is the undefined branch,
here `none`. -/
def GetBoundingBox (bboxOf : Item → EDA_RECT) (self : SELECTION Item) : Option EDA_RECT :=
  match self.Front with
  | none => none
  | some front =>
    let bbox : EDA_RECT := bboxOf front
    some ((self.m_items.drop 1).foldl (fun bbox i => bbox.Merge (bboxOf i)) bbox)

/-- Method `SELECTION::GetPosition`: the origin of `GetBoundingBox()`, cast to `VECTOR2I`. -/
def GetPosition (bboxOf : Item → EDA_RECT) (self : SELECTION Item) : Option VECTOR2I :=
  match self.GetBoundingBox bboxOf with
  | none => none
  | some bbox => some (VECTOR2I.ofWxPoint bbox.GetPosition)

/-- Method `SELECTION::GetCenter`: the centre of `GetBoundingBox()`, cast to `VECTOR2I`. -/
def GetCenter (bboxOf : Item → EDA_RECT) (self : SELECTION Item) : Option VECTOR2I :=
  match self.GetBoundingBox bboxOf with
  | none => none
  | some bbox => some (VECTOR2I.ofWxPoint bbox.Centre)

/-- The two locals of the scan in `GetTopLeftItem`: the candidate `topLeftItem` (null
before the first item is seen) and its bounding box `topLeftItemBB`. -/
structure TopLeftState (Item : Type) where
  topLeftItem : Option Item
  topLeftItemBB : EDA_RECT

/-- One pass through the body of the `for` loop of `GetTopLeftItem`. -/
def topLeftStep (bboxOf : Item → EDA_RECT) (st : TopLeftState Item) (item : Item) :
    TopLeftState Item :=
  let currentItem := item
  let currentItemBB := bboxOf currentItem
  match st.topLeftItem with
  | none => ⟨some currentItem, currentItemBB⟩
  | some _ =>
    if currentItemBB.GetLeft < st.topLeftItemBB.GetLeft then
      ⟨some currentItem, currentItemBB⟩
    else if st.topLeftItemBB.GetLeft = currentItemBB.GetLeft
        ∧ currentItemBB.GetTop < st.topLeftItemBB.GetTop then
      ⟨some currentItem, currentItemBB⟩
    else
      st

/-- Method `SELECTION::GetTopLeftItem`: a linear scan of `m_items` from a null candidate and a
default box; the candidate left at the end is returned.  The argument `onlyModules` is
not read by the body. -/
def GetTopLeftItem (bboxOf : Item → EDA_RECT) (self : SELECTION Item) (onlyModules : Bool) :
    Option Item :=
  (self.m_items.foldl (topLeftStep bboxOf) ⟨none, default⟩).topLeftItem

/-- The comparison the scan makes between the current box `c` and the candidate's box
`t`: the current item replaces the candidate exactly when this holds. -/
def Replaces (c t : EDA_RECT) : Prop :=
  c.GetLeft < t.GetLeft ∨ (t.GetLeft = c.GetLeft ∧ c.GetTop < t.GetTop)

instance (c t : EDA_RECT) : Decidable (Replaces c t) := by
  unfold Replaces; infer_instance

/-- The item `it` is top-left-most among `items`: no item has a strictly smaller left x,
and no item with the same left x has a strictly smaller top y. -/
def IsTopLeftMost (bboxOf : Item → EDA_RECT) (items : List Item) (it : Item) : Prop :=
  ∀ m ∈ items, ¬ (bboxOf m).GetLeft < (bboxOf it).GetLeft
    ∧ ((bboxOf m).GetLeft = (bboxOf it).GetLeft → ¬ (bboxOf m).GetTop < (bboxOf it).GetTop)

instance (bboxOf : Item → EDA_RECT) (items : List Item) (it : Item) :
    Decidable (IsTopLeftMost bboxOf items it) := by
  unfold IsTopLeftMost; infer_instance

/-- Method `SELECTION::ViewBBox`: a default box on which `SetMaximum` is called.  `BOX2I::SetMaximum`
is defined in `math/box2.h`, which is not among the sources; it is taken as the argument
`SetMaximum`, the box it leaves in place of the one it is called on. -/
def ViewBBox (SetMaximum : BOX2I → BOX2I) (_self : SELECTION Item) : BOX2I :=
  let r : BOX2I := default
  SetMaximum r

end SELECTION

/-! ## `MARKER_BASE` (include/marker_base.h) -/

/-- The enumeration `MARKER_BASE::TYPEMARKER`. -/
inductive MARKER_BASE.TYPEMARKER where
  | MARKER_UNSPEC
  | MARKER_ERC
  | MARKER_PCB
  | MARKER_SIMUL
deriving DecidableEq, Repr

/-- The data members of `MARKER_BASE`.  `RC_ITEM` is the type of the reference held in
`m_rcItem` (the report item itself is declared in `rc_item.h`, not among the sources). -/
structure MARKER_BASE (RC_ITEM : Type) where
  m_Pos : wxPoint
  m_markerType : MARKER_BASE.TYPEMARKER
  m_excluded : Bool
  m_rcItem : RC_ITEM
  m_scalingFactor : Int
  m_shapeBoundingBox : EDA_RECT

namespace MARKER_BASE

variable {RC_ITEM : Type}

/-- Method `MARKER_BASE::MarkerScale`: the scaling factor from shape coordinates to
internal units. -/
def MarkerScale (self : MARKER_BASE RC_ITEM) : Int := self.m_scalingFactor

/-- Method `MARKER_BASE::GetPos`: the position of the marker in internal units. -/
def GetPos (self : MARKER_BASE RC_ITEM) : wxPoint := self.m_Pos

/-- Method `MARKER_BASE::SetMarkerType`: assigns `m_markerType`. -/
def SetMarkerType (self : MARKER_BASE RC_ITEM) (aMarkerType : TYPEMARKER) :
    MARKER_BASE RC_ITEM :=
  { self with m_markerType := aMarkerType }

/-- Method `MARKER_BASE::GetMarkerType`: reads `m_markerType`. -/
def GetMarkerType (self : MARKER_BASE RC_ITEM) : TYPEMARKER := self.m_markerType

/-- Method `MARKER_BASE::IsExcluded`: reads `m_excluded`. -/
def IsExcluded (self : MARKER_BASE RC_ITEM) : Bool := self.m_excluded

/-- Method `MARKER_BASE::SetExcluded`: assigns `m_excluded`. -/
def SetExcluded (self : MARKER_BASE RC_ITEM) (aExcluded : Bool) : MARKER_BASE RC_ITEM :=
  { self with m_excluded := aExcluded }

/-- Method `MARKER_BASE::GetRCItem`: the report item reference held by the marker. -/
def GetRCItem (self : MARKER_BASE RC_ITEM) : RC_ITEM := self.m_rcItem

end MARKER_BASE

/-! ## Worked examples -/

/-- A concrete drawable for worked examples: an identity and the box its
`GetBoundingBox()` reports. -/
structure DrawItem where
  id : Nat
  box : EDA_RECT
deriving DecidableEq, Repr

/-- A selection of three drawables for worked examples; the first box has a negative
width, the last two share their left x. -/
def exampleSelection : SELECTION DrawItem :=
  ⟨[⟨0, ⟨⟨5, 0⟩, ⟨-3, 1⟩⟩⟩, ⟨1, ⟨⟨0, 2⟩, ⟨1, 1⟩⟩⟩, ⟨2, ⟨⟨0, -1⟩, ⟨7, 2⟩⟩⟩]⟩

/-- The drawables of `exampleSelection`, in the opposite order. -/
def exampleSelectionReversed : SELECTION DrawItem :=
  ⟨[⟨2, ⟨⟨0, -1⟩, ⟨7, 2⟩⟩⟩, ⟨1, ⟨⟨0, 2⟩, ⟨1, 1⟩⟩⟩, ⟨0, ⟨⟨5, 0⟩, ⟨-3, 1⟩⟩⟩]⟩

/-- A selection of three drawables whose boxes all have a non-negative width and
height. -/
def normalizedSelection : SELECTION DrawItem :=
  ⟨[⟨0, ⟨⟨5, 0⟩, ⟨3, 1⟩⟩⟩, ⟨1, ⟨⟨2, 4⟩, ⟨1, 1⟩⟩⟩, ⟨2, ⟨⟨2, 3⟩, ⟨0, 9⟩⟩⟩]⟩

/-- Two distinct drawables reporting the same bounding box. -/
def tiedSelection : SELECTION DrawItem :=
  ⟨[⟨0, ⟨⟨0, 0⟩, ⟨1, 1⟩⟩⟩, ⟨1, ⟨⟨0, 0⟩, ⟨1, 1⟩⟩⟩]⟩

/-- The same two drawables as `tiedSelection`, in the other order. -/
def tiedSelectionSwapped : SELECTION DrawItem :=
  ⟨[⟨1, ⟨⟨0, 0⟩, ⟨1, 1⟩⟩⟩, ⟨0, ⟨⟨0, 0⟩, ⟨1, 1⟩⟩⟩]⟩

/-! ## Facts about the rectangle operations -/

namespace EDA_RECT

theorem Encloses.refl (r : EDA_RECT) : r.Encloses r := by
  simp [Encloses]

theorem Encloses.trans {r s t : EDA_RECT} (h₁ : r.Encloses s) (h₂ : s.Encloses t) :
    r.Encloses t := by
  simp only [Encloses] at *
  omega

theorem Merge_encloses_left (r s : EDA_RECT) : (r.Merge s).Encloses r := by
  simp only [Encloses, Merge, minX, maxX, minY, maxY, GetLeft, GetRight, GetTop, GetBottom]
  omega

theorem Merge_encloses_right (r s : EDA_RECT) : (r.Merge s).Encloses s := by
  simp only [Encloses, Merge, minX, maxX, minY, maxY, GetLeft, GetRight, GetTop, GetBottom]
  omega

theorem Merge_least {r s t : EDA_RECT} (h₁ : t.Encloses r) (h₂ : t.Encloses s) :
    t.Encloses (r.Merge s) := by
  simp only [Encloses, Merge, minX, maxX, minY, maxY, GetLeft, GetRight, GetTop, GetBottom] at *
  omega

theorem Merge_isNormalized (r s : EDA_RECT) : (r.Merge s).IsNormalized := by
  simp only [IsNormalized, Merge, minX, maxX, minY, maxY, GetLeft, GetRight, GetTop, GetBottom]
  omega

theorem eq_of_encloses {r s : EDA_RECT} (hr : r.IsNormalized) (hs : s.IsNormalized)
    (h₁ : r.Encloses s) (h₂ : s.Encloses r) : r = s := by
  obtain ⟨⟨rx, ry⟩, ⟨rw, rh⟩⟩ := r
  obtain ⟨⟨sx, sy⟩, ⟨sw, sh⟩⟩ := s
  simp only [IsNormalized, Encloses, minX, maxX, minY, maxY, GetLeft, GetRight, GetTop,
    GetBottom] at *
  have hx : rx = sx := by omega
  have hy : ry = sy := by omega
  have hw : rw = sw := by omega
  have hh : rh = sh := by omega
  subst hx hy hw hh
  rfl

end EDA_RECT

/-! ## `GetBoundingBox`: the merged box -/

namespace SELECTION

variable {Item : Type}

/-- The merge loop of `GetBoundingBox`, started from a box `a` and run over `rest`: the
result encloses `a` and every box of `rest`, is enclosed by every rectangle that does so,
and has a non-negative size as soon as one merge took place. -/
theorem mergeLoop_spec (bboxOf : Item → EDA_RECT) (rest : List Item) (a : EDA_RECT) :
    ((rest.foldl (fun bbox i => bbox.Merge (bboxOf i)) a).Encloses a)
      ∧ (∀ i ∈ rest, (rest.foldl (fun bbox i => bbox.Merge (bboxOf i)) a).Encloses (bboxOf i))
      ∧ (∀ r : EDA_RECT, r.Encloses a → (∀ i ∈ rest, r.Encloses (bboxOf i)) →
          r.Encloses (rest.foldl (fun bbox i => bbox.Merge (bboxOf i)) a))
      ∧ (rest ≠ [] → (rest.foldl (fun bbox i => bbox.Merge (bboxOf i)) a).IsNormalized) := by
  induction rest generalizing a with
  | nil =>
    refine ⟨EDA_RECT.Encloses.refl a, ?_, ?_, ?_⟩
    · intro i hi; cases hi
    · intro r hr _; exact hr
    · intro h; exact absurd rfl h
  | cons b bs ih =>
    obtain ⟨h₁, h₂, h₃, h₄⟩ := ih (a.Merge (bboxOf b))
    simp only [List.foldl_cons]
    refine ⟨h₁.trans (EDA_RECT.Merge_encloses_left a _), ?_, ?_, ?_⟩
    · intro i hi
      rcases List.mem_cons.mp hi with rfl | hi
      · exact h₁.trans (EDA_RECT.Merge_encloses_right a _)
      · exact h₂ i hi
    · intro r hr hall
      refine h₃ r (EDA_RECT.Merge_least hr (hall b (List.mem_cons_self _ _))) ?_
      intro i hi
      exact hall i (List.mem_cons_of_mem _ hi)
    · intro _
      cases bs with
      | nil => exact EDA_RECT.Merge_isNormalized a _
      | cons c cs => exact h₄ (List.cons_ne_nil _ _)

/-- On a selection with a front item, `GetBoundingBox` is the merge loop over the
remaining items, started from the front item's box. -/
theorem GetBoundingBox_cons (bboxOf : Item → EDA_RECT) (front : Item) (rest : List Item) :
    GetBoundingBox bboxOf ⟨front :: rest⟩
      = some (rest.foldl (fun bbox i => bbox.Merge (bboxOf i)) (bboxOf front)) := by
  simp [GetBoundingBox, Front]

/-- The box returned on a non-empty selection encloses every member's box, is enclosed by
every rectangle enclosing all of them, and is normalised when there are two items or
more. -/
theorem GetBoundingBox_spec (bboxOf : Item → EDA_RECT) (sel : SELECTION Item)
    (hne : sel.m_items ≠ []) :
    ∃ bbox, GetBoundingBox bboxOf sel = some bbox
      ∧ (∀ i ∈ sel.m_items, bbox.Encloses (bboxOf i))
      ∧ (∀ r : EDA_RECT, (∀ i ∈ sel.m_items, r.Encloses (bboxOf i)) → r.Encloses bbox)
      ∧ (2 ≤ sel.m_items.length → bbox.IsNormalized) := by
  obtain ⟨items⟩ := sel
  cases items with
  | nil => exact absurd rfl hne
  | cons front rest =>
    obtain ⟨h₁, h₂, h₃, h₄⟩ := mergeLoop_spec bboxOf rest (bboxOf front)
    refine ⟨_, GetBoundingBox_cons bboxOf front rest, ?_, ?_, ?_⟩
    · intro i hi
      rcases List.mem_cons.mp hi with rfl | hi
      · exact h₁
      · exact h₂ i hi
    · intro r hall
      exact h₃ r (hall front (List.mem_cons_self _ _))
        (fun i hi => hall i (List.mem_cons_of_mem _ hi))
    · intro hlen
      apply h₄
      intro hnil
      subst hnil
      simp at hlen

end SELECTION

/-! ## `GetTopLeftItem`: the scan -/

namespace SELECTION

variable {Item : Type}

/-- The loop body once a candidate is held. -/
theorem topLeftStep_some (bboxOf : Item → EDA_RECT) (cur x : Item) :
    topLeftStep bboxOf ⟨some cur, bboxOf cur⟩ x
      = if Replaces (bboxOf x) (bboxOf cur) then ⟨some x, bboxOf x⟩
        else ⟨some cur, bboxOf cur⟩ := by
  unfold topLeftStep Replaces
  by_cases h₁ : (bboxOf x).GetLeft < (bboxOf cur).GetLeft
  · simp [h₁]
  · by_cases h₂ : (bboxOf cur).GetLeft = (bboxOf x).GetLeft
        ∧ (bboxOf x).GetTop < (bboxOf cur).GetTop
    · simp [h₁, h₂]
    · simp only [h₁, h₂, if_false, false_or]

/-- The scan started with candidate `cur` and run over `l` stops on an item `r` of
`cur :: l` which replaces every item before it and is replaced by no item after it. -/
theorem scan_spec (bboxOf : Item → EDA_RECT) (l : List Item) (cur : Item) :
    ∃ pre r post, cur :: l = pre ++ r :: post
      ∧ l.foldl (topLeftStep bboxOf) ⟨some cur, bboxOf cur⟩ = ⟨some r, bboxOf r⟩
      ∧ (∀ p ∈ pre, Replaces (bboxOf r) (bboxOf p))
      ∧ (∀ q ∈ post, ¬ Replaces (bboxOf q) (bboxOf r)) := by
  induction l using List.reverseRecOn with
  | nil =>
    refine ⟨[], cur, [], rfl, rfl, ?_, ?_⟩ <;> intro p hp <;> cases hp
  | append_singleton xs x ih =>
    obtain ⟨pre, r, post, hsplit, hfold, hpre, hpost⟩ := ih
    rw [List.foldl_append, hfold, List.foldl_cons, List.foldl_nil, topLeftStep_some]
    by_cases hx : Replaces (bboxOf x) (bboxOf r)
    · refine ⟨cur :: xs, x, [], ?_, ?_, ?_, ?_⟩
      · simp
      · simp [hx]
      · intro p hp
        rw [hsplit] at hp
        simp only [List.mem_append, List.mem_cons] at hp
        rcases hp with hp | rfl | hp
        · have := hpre p hp
          simp only [Replaces] at this hx ⊢
          omega
        · exact hx
        · have := hpost p hp
          simp only [Replaces] at this hx ⊢
          omega
      · intro q hq; cases hq
    · refine ⟨pre, r, post ++ [x], ?_, ?_, hpre, ?_⟩
      · rw [← List.cons_append, hsplit]; simp
      · simp [hx]
      · intro q hq
        simp only [List.mem_append, List.mem_singleton] at hq
        rcases hq with hq | rfl
        · exact hpost q hq
        · exact hx

/-- On a selection with a front item the scan of `GetTopLeftItem` is the scan started
with that item as candidate. -/
theorem GetTopLeftItem_cons (bboxOf : Item → EDA_RECT) (front : Item) (rest : List Item)
    (onlyModules : Bool) :
    GetTopLeftItem bboxOf ⟨front :: rest⟩ onlyModules
      = (rest.foldl (topLeftStep bboxOf) ⟨some front, bboxOf front⟩).topLeftItem := by
  simp [GetTopLeftItem, topLeftStep]

/-- Shape of the result of `GetTopLeftItem` on a non-empty selection: the item returned
sits at a place of `m_items` such that it replaces every item before it and no item after
it replaces it. -/
theorem GetTopLeftItem_spec (bboxOf : Item → EDA_RECT) (sel : SELECTION Item)
    (onlyModules : Bool) (hne : sel.m_items ≠ []) :
    ∃ pre r post, sel.m_items = pre ++ r :: post
      ∧ GetTopLeftItem bboxOf sel onlyModules = some r
      ∧ (∀ p ∈ pre, Replaces (bboxOf r) (bboxOf p))
      ∧ (∀ q ∈ post, ¬ Replaces (bboxOf q) (bboxOf r)) := by
  obtain ⟨items⟩ := sel
  cases items with
  | nil => exact absurd rfl hne
  | cons front rest =>
    obtain ⟨pre, r, post, hsplit, hfold, hpre, hpost⟩ := scan_spec bboxOf rest front
    refine ⟨pre, r, post, hsplit, ?_, hpre, hpost⟩
    rw [GetTopLeftItem_cons, hfold]

/-- The item returned by `GetTopLeftItem` is top-left-most in the selection. -/
theorem GetTopLeftItem_isTopLeftMost (bboxOf : Item → EDA_RECT) (sel : SELECTION Item)
    (onlyModules : Bool) (r : Item) (h : GetTopLeftItem bboxOf sel onlyModules = some r) :
    r ∈ sel.m_items ∧ IsTopLeftMost bboxOf sel.m_items r := by
  have hne : sel.m_items ≠ [] := by
    intro hnil
    obtain ⟨items⟩ := sel
    simp only at hnil
    subst hnil
    simp [GetTopLeftItem] at h
  obtain ⟨pre, r', post, hsplit, hres, hpre, hpost⟩ :=
    GetTopLeftItem_spec bboxOf sel onlyModules hne
  rw [hres] at h
  cases h
  refine ⟨by rw [hsplit]; simp, ?_⟩
  intro m hm
  rw [hsplit] at hm
  simp only [List.mem_append, List.mem_cons] at hm
  rcases hm with hm | rfl | hm
  · have := hpre m hm
    simp only [Replaces] at this
    omega
  · omega
  · have := hpost m hm
    simp only [Replaces] at this
    omega

end SELECTION

/-! ## Claims -/

/-- C1. For every non-empty selection `GetBoundingBox` returns the union of the members'
bounding boxes: the returned rectangle encloses the box of every item, every rectangle
enclosing all the items' boxes encloses it (so it is the smallest one), and every
permutation of the same items gives the same rectangle. -/
theorem C1_GetBoundingBox_union {Item : Type} (bboxOf : Item → EDA_RECT)
    (sel : SELECTION Item) (hne : sel.m_items ≠ []) :
    ∃ bbox, SELECTION.GetBoundingBox bboxOf sel = some bbox
      ∧ (∀ i ∈ sel.m_items, bbox.Encloses (bboxOf i))
      ∧ (∀ r : EDA_RECT, (∀ i ∈ sel.m_items, r.Encloses (bboxOf i)) → r.Encloses bbox)
      ∧ (∀ sel' : SELECTION Item, sel'.m_items.Perm sel.m_items →
          SELECTION.GetBoundingBox bboxOf sel' = some bbox) := by
  obtain ⟨bbox, hb, henc, hleast, hnorm⟩ := SELECTION.GetBoundingBox_spec bboxOf sel hne
  refine ⟨bbox, hb, henc, hleast, ?_⟩
  intro sel' hperm
  have hne' : sel'.m_items ≠ [] := by
    intro h
    rw [h] at hperm
    exact hne (List.Perm.nil_eq hperm).symm
  obtain ⟨bbox', hb', henc', hleast', hnorm'⟩ := SELECTION.GetBoundingBox_spec bboxOf sel' hne'
  have hlen : sel'.m_items.length = sel.m_items.length := hperm.length_eq
  by_cases h2 : 2 ≤ sel.m_items.length
  · have e : bbox' = bbox :=
      EDA_RECT.eq_of_encloses (hnorm' (hlen ▸ h2)) (hnorm h2)
        (hleast bbox' (fun i hi => henc' i (hperm.mem_iff.mpr hi)))
        (hleast' bbox (fun i hi => henc i (hperm.mem_iff.mp hi)))
    rw [hb', e]
  · obtain ⟨items⟩ := sel
    obtain ⟨items'⟩ := sel'
    simp only at hperm hne h2 hb hb' ⊢
    match items, hne, h2 with
    | [a], _, _ =>
      have : items' = [a] := List.perm_singleton.mp hperm
      subst this
      rw [← hb]
    | [], hne, _ => exact absurd rfl hne
    | _ :: _ :: _, _, h2 => simp at h2

/-- C1, on an example: three boxes, one of them of negative width. -/
theorem C1_GetBoundingBox_union_witness :
    exampleSelection.m_items ≠ []
      ∧ ∃ bbox, SELECTION.GetBoundingBox DrawItem.box exampleSelection = some bbox
        ∧ (∀ i ∈ exampleSelection.m_items, bbox.Encloses (DrawItem.box i))
        ∧ (∀ r : EDA_RECT, (∀ i ∈ exampleSelection.m_items, r.Encloses (DrawItem.box i)) →
            r.Encloses bbox)
        ∧ (∀ sel' : SELECTION DrawItem, sel'.m_items.Perm exampleSelection.m_items →
            SELECTION.GetBoundingBox DrawItem.box sel' = some bbox) :=
  ⟨by decide, C1_GetBoundingBox_union DrawItem.box exampleSelection (by decide)⟩

/-- C2. For every non-empty selection `GetTopLeftItem` returns a member of the selection
whose bounding box is minimal for (left x, then top y): no member has a strictly smaller
left x, and no member with the same left x has a strictly smaller top y. -/
theorem C2_GetTopLeftItem_minimal {Item : Type} (bboxOf : Item → EDA_RECT)
    (sel : SELECTION Item) (onlyModules : Bool) (hne : sel.m_items ≠ []) :
    ∃ it, SELECTION.GetTopLeftItem bboxOf sel onlyModules = some it
      ∧ it ∈ sel.m_items
      ∧ ∀ m ∈ sel.m_items, ¬ (bboxOf m).GetLeft < (bboxOf it).GetLeft
          ∧ ((bboxOf m).GetLeft = (bboxOf it).GetLeft →
              ¬ (bboxOf m).GetTop < (bboxOf it).GetTop) := by
  obtain ⟨pre, r, post, _, hres, _, _⟩ :=
    SELECTION.GetTopLeftItem_spec bboxOf sel onlyModules hne
  obtain ⟨hmem, hmin⟩ := SELECTION.GetTopLeftItem_isTopLeftMost bboxOf sel onlyModules r hres
  exact ⟨r, hres, hmem, hmin⟩

/-- C2, on the example selection: the third drawable, at (0, -1), is returned. -/
theorem C2_GetTopLeftItem_minimal_witness :
    exampleSelection.m_items ≠ []
      ∧ ∃ it, SELECTION.GetTopLeftItem DrawItem.box exampleSelection false = some it
        ∧ it ∈ exampleSelection.m_items
        ∧ ∀ m ∈ exampleSelection.m_items, ¬ (DrawItem.box m).GetLeft < (DrawItem.box it).GetLeft
            ∧ ((DrawItem.box m).GetLeft = (DrawItem.box it).GetLeft →
                ¬ (DrawItem.box m).GetTop < (DrawItem.box it).GetTop) :=
  ⟨by decide, C2_GetTopLeftItem_minimal DrawItem.box exampleSelection false (by decide)⟩

/-- C3, as stated, fails: two distinct drawables with the same bounding box, listed in
the two possible orders; each order returns its own first item. -/
theorem C3_GetTopLeftItem_perm_counterexample :
    List.Perm tiedSelectionSwapped.m_items tiedSelection.m_items
      ∧ SELECTION.GetTopLeftItem DrawItem.box tiedSelection false
          = some ⟨0, ⟨⟨0, 0⟩, ⟨1, 1⟩⟩⟩
      ∧ SELECTION.GetTopLeftItem DrawItem.box tiedSelectionSwapped false
          = some ⟨1, ⟨⟨0, 0⟩, ⟨1, 1⟩⟩⟩
      ∧ SELECTION.GetTopLeftItem DrawItem.box tiedSelectionSwapped false
          ≠ SELECTION.GetTopLeftItem DrawItem.box tiedSelection false := by
  refine ⟨?_, by decide, by decide, by decide⟩
  exact List.Perm.swap _ _ _

/-- C3, amended. For every collection of items and every permutation of it, the items
`GetTopLeftItem` returns on the two have bounding boxes with the same left x and the same
top y; and when the collection has only one top-left-most item, the same item is returned
on both. -/
theorem C3_GetTopLeftItem_perm {Item : Type} (bboxOf : Item → EDA_RECT)
    (sel sel' : SELECTION Item) (onlyModules : Bool)
    (hperm : sel'.m_items.Perm sel.m_items) :
    (∀ r r', SELECTION.GetTopLeftItem bboxOf sel onlyModules = some r →
        SELECTION.GetTopLeftItem bboxOf sel' onlyModules = some r' →
        (bboxOf r').GetLeft = (bboxOf r).GetLeft ∧ (bboxOf r').GetTop = (bboxOf r).GetTop)
      ∧ ((∀ a ∈ sel.m_items, ∀ c ∈ sel.m_items,
            SELECTION.IsTopLeftMost bboxOf sel.m_items a →
            SELECTION.IsTopLeftMost bboxOf sel.m_items c → a = c) →
          SELECTION.GetTopLeftItem bboxOf sel' onlyModules
            = SELECTION.GetTopLeftItem bboxOf sel onlyModules) := by
  have key : ∀ r r', SELECTION.GetTopLeftItem bboxOf sel onlyModules = some r →
      SELECTION.GetTopLeftItem bboxOf sel' onlyModules = some r' →
      r ∈ sel.m_items ∧ r' ∈ sel.m_items
        ∧ SELECTION.IsTopLeftMost bboxOf sel.m_items r
        ∧ SELECTION.IsTopLeftMost bboxOf sel.m_items r' := by
    intro r r' hr hr'
    obtain ⟨hm, hmin⟩ := SELECTION.GetTopLeftItem_isTopLeftMost bboxOf sel onlyModules r hr
    obtain ⟨hm', hmin'⟩ := SELECTION.GetTopLeftItem_isTopLeftMost bboxOf sel' onlyModules r' hr'
    exact ⟨hm, hperm.mem_iff.mp hm', hmin, fun m hm => hmin' m (hperm.mem_iff.mpr hm)⟩
  refine ⟨?_, ?_⟩
  · intro r r' hr hr'
    obtain ⟨hm, hm', hmin, hmin'⟩ := key r r' hr hr'
    have h₁ := hmin r' hm'
    have h₂ := hmin' r hm
    omega
  · intro huniq
    by_cases hne : sel.m_items = []
    · have hne' : sel'.m_items = [] := by
        rw [hne] at hperm
        exact List.Perm.eq_nil hperm
      obtain ⟨items⟩ := sel
      obtain ⟨items'⟩ := sel'
      simp only at hne hne'
      subst hne hne'
      rfl
    · have hne' : sel'.m_items ≠ [] := by
        intro h
        rw [h] at hperm
        exact hne (List.Perm.nil_eq hperm).symm
      obtain ⟨_, r, _, _, hr, _, _⟩ := SELECTION.GetTopLeftItem_spec bboxOf sel onlyModules hne
      obtain ⟨_, r', _, _, hr', _, _⟩ :=
        SELECTION.GetTopLeftItem_spec bboxOf sel' onlyModules hne'
      obtain ⟨hm, hm', hmin, hmin'⟩ := key r r' hr hr'
      rw [hr, hr', huniq r' hm' r hm hmin' hmin]

/-- C3 amended, on the example selection and its reversal: only the drawable at (0, -1)
is top-left-most, and both orders return it. -/
theorem C3_GetTopLeftItem_perm_witness :
    exampleSelectionReversed.m_items.Perm exampleSelection.m_items
      ∧ (∀ a ∈ exampleSelection.m_items, ∀ c ∈ exampleSelection.m_items,
          SELECTION.IsTopLeftMost DrawItem.box exampleSelection.m_items a →
          SELECTION.IsTopLeftMost DrawItem.box exampleSelection.m_items c → a = c)
      ∧ SELECTION.GetTopLeftItem DrawItem.box exampleSelectionReversed false
          = SELECTION.GetTopLeftItem DrawItem.box exampleSelection false :=
  ⟨by decide, by decide,
    (C3_GetTopLeftItem_perm DrawItem.box exampleSelection exampleSelectionReversed false
      (by decide)).2 (by decide)⟩

/-- C4. Tie-break law of `GetTopLeftItem`: of two items with equal left x and different
top y the one with the smaller top y is returned, whichever comes first; and on every
non-empty selection the item returned is top-left-most and no item before it in iteration
order has the same (left x, top y), so it is the first encountered among those at the
minimum. -/
theorem C4_GetTopLeftItem_tie_break {Item : Type} (bboxOf : Item → EDA_RECT)
    (onlyModules : Bool) :
    (∀ a b : Item, (bboxOf a).GetLeft = (bboxOf b).GetLeft →
        (bboxOf a).GetTop < (bboxOf b).GetTop →
        SELECTION.GetTopLeftItem bboxOf ⟨[a, b]⟩ onlyModules = some a
          ∧ SELECTION.GetTopLeftItem bboxOf ⟨[b, a]⟩ onlyModules = some a)
      ∧ (∀ sel : SELECTION Item, sel.m_items ≠ [] →
          ∃ pre it post, sel.m_items = pre ++ it :: post
            ∧ SELECTION.GetTopLeftItem bboxOf sel onlyModules = some it
            ∧ SELECTION.IsTopLeftMost bboxOf sel.m_items it
            ∧ ∀ p ∈ pre, ¬ ((bboxOf p).GetLeft = (bboxOf it).GetLeft
                ∧ (bboxOf p).GetTop = (bboxOf it).GetTop)) := by
  refine ⟨?_, ?_⟩
  · intro a b hleft htop
    have hab : SELECTION.Replaces (bboxOf a) (bboxOf b) := Or.inr ⟨hleft.symm, htop⟩
    have hba : ¬ SELECTION.Replaces (bboxOf b) (bboxOf a) := by
      simp only [SELECTION.Replaces]
      omega
    constructor
    · rw [SELECTION.GetTopLeftItem_cons, List.foldl_cons, List.foldl_nil,
        SELECTION.topLeftStep_some, if_neg hba]
    · rw [SELECTION.GetTopLeftItem_cons, List.foldl_cons, List.foldl_nil,
        SELECTION.topLeftStep_some, if_pos hab]
  · intro sel hne
    obtain ⟨pre, r, post, hsplit, hres, hpre, _⟩ :=
      SELECTION.GetTopLeftItem_spec bboxOf sel onlyModules hne
    refine ⟨pre, r, post, hsplit, hres,
      (SELECTION.GetTopLeftItem_isTopLeftMost bboxOf sel onlyModules r hres).2, ?_⟩
    intro p hp
    have := hpre p hp
    simp only [SELECTION.Replaces] at this
    omega

/-- C4, on examples: the last two drawables of the example selection share left x 0 and
have top y 2 and -1; and in the tied selection the first of the two equal boxes wins. -/
theorem C4_GetTopLeftItem_tie_break_witness :
    (SELECTION.GetTopLeftItem DrawItem.box
          ⟨[⟨2, ⟨⟨0, -1⟩, ⟨7, 2⟩⟩⟩, ⟨1, ⟨⟨0, 2⟩, ⟨1, 1⟩⟩⟩]⟩ true = some ⟨2, ⟨⟨0, -1⟩, ⟨7, 2⟩⟩⟩
        ∧ SELECTION.GetTopLeftItem DrawItem.box
          ⟨[⟨1, ⟨⟨0, 2⟩, ⟨1, 1⟩⟩⟩, ⟨2, ⟨⟨0, -1⟩, ⟨7, 2⟩⟩⟩]⟩ true = some ⟨2, ⟨⟨0, -1⟩, ⟨7, 2⟩⟩⟩)
      ∧ ∃ pre it post, tiedSelection.m_items = pre ++ it :: post
          ∧ SELECTION.GetTopLeftItem DrawItem.box tiedSelection true = some it
          ∧ SELECTION.IsTopLeftMost DrawItem.box tiedSelection.m_items it
          ∧ ∀ p ∈ pre, ¬ ((DrawItem.box p).GetLeft = (DrawItem.box it).GetLeft
              ∧ (DrawItem.box p).GetTop = (DrawItem.box it).GetTop) :=
  ⟨(C4_GetTopLeftItem_tie_break DrawItem.box true).1
      ⟨2, ⟨⟨0, -1⟩, ⟨7, 2⟩⟩⟩ ⟨1, ⟨⟨0, 2⟩, ⟨1, 1⟩⟩⟩ (by decide) (by decide),
    (C4_GetTopLeftItem_tie_break DrawItem.box true).2 tiedSelection (by decide)⟩

/-- C5. `GetTopLeftItem` returns null exactly when the selection is empty: on the empty
selection the scan ends in its initial state (null candidate, default box) whatever the
items' boxes would be, and on a non-empty selection a member of it is returned. -/
theorem C5_GetTopLeftItem_null_iff_empty {Item : Type} (bboxOf : Item → EDA_RECT)
    (sel : SELECTION Item) (onlyModules : Bool) :
    (SELECTION.GetTopLeftItem bboxOf sel onlyModules = none ↔ sel.m_items = [])
      ∧ (([] : List Item).foldl (SELECTION.topLeftStep bboxOf) ⟨none, default⟩).topLeftItem
          = none
      ∧ (∀ bboxOf' : Item → EDA_RECT,
          SELECTION.GetTopLeftItem bboxOf' ⟨[]⟩ onlyModules
            = SELECTION.GetTopLeftItem bboxOf ⟨[]⟩ onlyModules)
      ∧ (sel.m_items ≠ [] →
          ∃ it, SELECTION.GetTopLeftItem bboxOf sel onlyModules = some it
            ∧ it ∈ sel.m_items) := by
  have hsome : sel.m_items ≠ [] →
      ∃ it, SELECTION.GetTopLeftItem bboxOf sel onlyModules = some it ∧ it ∈ sel.m_items := by
    intro hne
    obtain ⟨_, r, _, _, hres, _, _⟩ := SELECTION.GetTopLeftItem_spec bboxOf sel onlyModules hne
    exact ⟨r, hres, (SELECTION.GetTopLeftItem_isTopLeftMost bboxOf sel onlyModules r hres).1⟩
  refine ⟨⟨?_, ?_⟩, rfl, fun _ => rfl, hsome⟩
  · intro hnone
    by_contra hne
    obtain ⟨it, hit, _⟩ := hsome hne
    rw [hit] at hnone
    cases hnone
  · intro hnil
    obtain ⟨items⟩ := sel
    simp only at hnil
    subst hnil
    rfl

/-- C5, on the example selection: it is not empty and an item is returned. -/
theorem C5_GetTopLeftItem_null_iff_empty_witness :
    exampleSelection.m_items ≠ []
      ∧ ∃ it, SELECTION.GetTopLeftItem DrawItem.box exampleSelection false = some it
          ∧ it ∈ exampleSelection.m_items :=
  ⟨by decide,
    (C5_GetTopLeftItem_null_iff_empty DrawItem.box exampleSelection false).2.2.2 (by decide)⟩

/-- C6. With the front of the item list taken as an `Option`, `GetBoundingBox`,
`GetPosition` and `GetCenter` end in the undefined branch exactly when the selection is
empty; on every non-empty selection each returns a value. -/
theorem C6_undefined_iff_empty {Item : Type} (bboxOf : Item → EDA_RECT)
    (sel : SELECTION Item) :
    (SELECTION.GetBoundingBox bboxOf sel = none ↔ sel.m_items = [])
      ∧ (SELECTION.GetPosition bboxOf sel = none ↔ sel.m_items = [])
      ∧ (SELECTION.GetCenter bboxOf sel = none ↔ sel.m_items = [])
      ∧ (sel.m_items ≠ [] →
          (∃ bbox, SELECTION.GetBoundingBox bboxOf sel = some bbox)
            ∧ (∃ p, SELECTION.GetPosition bboxOf sel = some p)
            ∧ (∃ c, SELECTION.GetCenter bboxOf sel = some c)) := by
  obtain ⟨items⟩ := sel
  cases items with
  | nil => simp [SELECTION.GetBoundingBox, SELECTION.GetPosition, SELECTION.GetCenter,
      SELECTION.Front]
  | cons front rest =>
    simp [SELECTION.GetPosition, SELECTION.GetCenter, SELECTION.GetBoundingBox_cons]

/-- C6, on the example selection: all three queries return a value. -/
theorem C6_undefined_iff_empty_witness :
    exampleSelection.m_items ≠ []
      ∧ (∃ bbox, SELECTION.GetBoundingBox DrawItem.box exampleSelection = some bbox)
      ∧ (∃ p, SELECTION.GetPosition DrawItem.box exampleSelection = some p)
      ∧ (∃ c, SELECTION.GetCenter DrawItem.box exampleSelection = some c) :=
  ⟨by decide, (C6_undefined_iff_empty DrawItem.box exampleSelection).2.2.2 (by decide)⟩

/-- C7. `ViewBBox` returns, for every selection and the empty one too, the box
`SetMaximum` makes of a default box; the result is the same for every other selection. -/
theorem C7_ViewBBox_maximum {Item : Type} (SetMaximum : BOX2I → BOX2I)
    (sel : SELECTION Item) :
    SELECTION.ViewBBox SetMaximum sel = SetMaximum default
      ∧ SELECTION.ViewBBox SetMaximum sel = SELECTION.ViewBBox SetMaximum (⟨[]⟩ : SELECTION Item)
      ∧ ∀ sel' : SELECTION Item,
          SELECTION.ViewBBox SetMaximum sel' = SELECTION.ViewBBox SetMaximum sel :=
  ⟨rfl, rfl, fun _ => rfl⟩

/-- C8. For every non-empty selection `GetPosition` is the origin of the rectangle
`GetBoundingBox` returns and `GetCenter` is the centre of that same rectangle. -/
theorem C8_position_center_of_bbox {Item : Type} (bboxOf : Item → EDA_RECT)
    (sel : SELECTION Item) (hne : sel.m_items ≠ []) :
    ∃ bbox, SELECTION.GetBoundingBox bboxOf sel = some bbox
      ∧ SELECTION.GetPosition bboxOf sel = some (VECTOR2I.ofWxPoint bbox.GetPosition)
      ∧ SELECTION.GetCenter bboxOf sel = some (VECTOR2I.ofWxPoint bbox.Centre) := by
  obtain ⟨items⟩ := sel
  cases items with
  | nil => exact absurd rfl hne
  | cons front rest =>
    refine ⟨_, SELECTION.GetBoundingBox_cons bboxOf front rest, ?_, ?_⟩
    · simp [SELECTION.GetPosition, SELECTION.GetBoundingBox_cons]
    · simp [SELECTION.GetCenter, SELECTION.GetBoundingBox_cons]

/-- C8, on the example selection, whose bounding box has origin (0, -1) and size (7, 4):
the position is (0, -1) and the centre (3, 1). -/
theorem C8_position_center_of_bbox_witness :
    exampleSelection.m_items ≠ []
      ∧ SELECTION.GetBoundingBox DrawItem.box exampleSelection = some ⟨⟨0, -1⟩, ⟨7, 4⟩⟩
      ∧ SELECTION.GetPosition DrawItem.box exampleSelection = some ⟨0, -1⟩
      ∧ SELECTION.GetCenter DrawItem.box exampleSelection = some ⟨3, 1⟩
      ∧ ∃ bbox, SELECTION.GetBoundingBox DrawItem.box exampleSelection = some bbox
          ∧ SELECTION.GetPosition DrawItem.box exampleSelection
              = some (VECTOR2I.ofWxPoint bbox.GetPosition)
          ∧ SELECTION.GetCenter DrawItem.box exampleSelection
              = some (VECTOR2I.ofWxPoint bbox.Centre) :=
  ⟨by decide, by decide, by decide, by decide,
    C8_position_center_of_bbox DrawItem.box exampleSelection (by decide)⟩

/-- C9. Marker setters are read back by their getters: `GetMarkerType` after
`SetMarkerType t` returns `t`, and `IsExcluded` after `SetExcluded b` returns `b`. -/
theorem C9_marker_setters_read_back {RC_ITEM : Type} (m : MARKER_BASE RC_ITEM) :
    (∀ t : MARKER_BASE.TYPEMARKER, (m.SetMarkerType t).GetMarkerType = t)
      ∧ (∀ b : Bool, (m.SetExcluded b).IsExcluded = b) :=
  ⟨fun _ => rfl, fun _ => rfl⟩

/-- C11. `GetBoundingBox` merges starting from the first item: on a non-empty selection
`x1, ..., xn` the result is the left fold of `Merge` over the bounding boxes of
`x2, ..., xn`, in that order, started from the bounding box of `x1`; on a one-item
selection it is that item's bounding box as it stands. -/
theorem C11_GetBoundingBox_fold_from_first {Item : Type} (bboxOf : Item → EDA_RECT)
    (sel : SELECTION Item) (hne : sel.m_items ≠ []) :
    (∃ x1 rest, sel.m_items = x1 :: rest
        ∧ SELECTION.GetBoundingBox bboxOf sel
            = some ((rest.map bboxOf).foldl EDA_RECT.Merge (bboxOf x1)))
      ∧ (∀ x : Item, sel.m_items = [x] →
          SELECTION.GetBoundingBox bboxOf sel = some (bboxOf x)) := by
  obtain ⟨items⟩ := sel
  cases items with
  | nil => exact absurd rfl hne
  | cons front rest =>
    refine ⟨⟨front, rest, rfl, ?_⟩, ?_⟩
    · rw [SELECTION.GetBoundingBox_cons, List.foldl_map]
    · intro x hx
      simp only [List.cons.injEq] at hx
      obtain ⟨rfl, rfl⟩ := hx
      rw [SELECTION.GetBoundingBox_cons, List.foldl_nil]

/-- C11, on the example selection: the box of the first drawable merged with the second
and then the third, and a one-item selection keeping a box of negative width. -/
theorem C11_GetBoundingBox_fold_from_first_witness :
    exampleSelection.m_items ≠ []
      ∧ SELECTION.GetBoundingBox DrawItem.box exampleSelection
          = some (((⟨⟨5, 0⟩, ⟨-3, 1⟩⟩ : EDA_RECT).Merge ⟨⟨0, 2⟩, ⟨1, 1⟩⟩).Merge ⟨⟨0, -1⟩, ⟨7, 2⟩⟩)
      ∧ SELECTION.GetBoundingBox DrawItem.box ⟨[⟨0, ⟨⟨5, 0⟩, ⟨-3, 1⟩⟩⟩]⟩
          = some ⟨⟨5, 0⟩, ⟨-3, 1⟩⟩
      ∧ ∃ x1 rest, exampleSelection.m_items = x1 :: rest
          ∧ SELECTION.GetBoundingBox DrawItem.box exampleSelection
              = some ((rest.map DrawItem.box).foldl EDA_RECT.Merge (DrawItem.box x1)) :=
  ⟨by decide, by decide,
    (C11_GetBoundingBox_fold_from_first DrawItem.box ⟨[⟨0, ⟨⟨5, 0⟩, ⟨-3, 1⟩⟩⟩]⟩
      (by decide)).2 _ rfl,
    (C11_GetBoundingBox_fold_from_first DrawItem.box exampleSelection (by decide)).1⟩

/-- C12. `GetBoundingBox` and `GetTopLeftItem` agree: on a non-empty selection whose item
bounding boxes all have non-negative width and height, the left x of the merged box is
the left x of the box of the item `GetTopLeftItem` returns, and the top y of the merged
box is at most that item's top y. -/
theorem C12_bbox_agrees_with_top_left {Item : Type} (bboxOf : Item → EDA_RECT)
    (sel : SELECTION Item) (onlyModules : Bool) (hne : sel.m_items ≠ [])
    (hsize : ∀ i ∈ sel.m_items, (bboxOf i).IsNormalized) :
    ∃ bbox it, SELECTION.GetBoundingBox bboxOf sel = some bbox
      ∧ SELECTION.GetTopLeftItem bboxOf sel onlyModules = some it
      ∧ bbox.GetLeft = (bboxOf it).GetLeft
      ∧ bbox.GetTop ≤ (bboxOf it).GetTop := by
  obtain ⟨bbox, hb, henc, hleast, hnorm⟩ := SELECTION.GetBoundingBox_spec bboxOf sel hne
  obtain ⟨_, t, _, _, ht, _, _⟩ := SELECTION.GetTopLeftItem_spec bboxOf sel onlyModules hne
  obtain ⟨hmem, hmin⟩ := SELECTION.GetTopLeftItem_isTopLeftMost bboxOf sel onlyModules t ht
  have hbn : bbox.IsNormalized := by
    by_cases h2 : 2 ≤ sel.m_items.length
    · exact hnorm h2
    · obtain ⟨items⟩ := sel
      match items, hne, h2 with
      | [a], _, _ =>
        rw [SELECTION.GetBoundingBox_cons, List.foldl_nil] at hb
        cases hb
        exact hsize a (List.mem_singleton.mpr rfl)
      | [], hne, _ => exact absurd rfl hne
      | _ :: _ :: _, _, h2 => simp at h2
  have htenc := henc t hmem
  have htn := hsize t hmem
  have hle := hleast
    ⟨⟨(bboxOf t).GetLeft, bbox.minY⟩,
      ⟨bbox.maxX - (bboxOf t).GetLeft, bbox.maxY - bbox.minY⟩⟩
    (by
      intro i hi
      have h₁ := henc i hi
      have h₂ := hmin i hi
      have h₃ := hsize i hi
      simp only [EDA_RECT.Encloses, EDA_RECT.IsNormalized, EDA_RECT.minX, EDA_RECT.maxX,
        EDA_RECT.minY, EDA_RECT.maxY, EDA_RECT.GetLeft, EDA_RECT.GetRight, EDA_RECT.GetTop,
        EDA_RECT.GetBottom] at *
      omega)
  refine ⟨bbox, t, hb, ht, ?_, ?_⟩
  · simp only [EDA_RECT.Encloses, EDA_RECT.IsNormalized, EDA_RECT.minX, EDA_RECT.maxX,
      EDA_RECT.minY, EDA_RECT.maxY, EDA_RECT.GetLeft, EDA_RECT.GetRight, EDA_RECT.GetTop,
      EDA_RECT.GetBottom] at *
    omega
  · simp only [EDA_RECT.Encloses, EDA_RECT.IsNormalized, EDA_RECT.minX, EDA_RECT.maxX,
      EDA_RECT.minY, EDA_RECT.maxY, EDA_RECT.GetLeft, EDA_RECT.GetRight, EDA_RECT.GetTop,
      EDA_RECT.GetBottom] at *
    omega

/-- C12, on a selection of boxes of non-negative size: the merged box is at (2, 0) with
size (6, 12), and the item returned is the one at (2, 3). -/
theorem C12_bbox_agrees_with_top_left_witness :
    normalizedSelection.m_items ≠ []
      ∧ (∀ i ∈ normalizedSelection.m_items, (DrawItem.box i).IsNormalized)
      ∧ SELECTION.GetBoundingBox DrawItem.box normalizedSelection = some ⟨⟨2, 0⟩, ⟨6, 12⟩⟩
      ∧ SELECTION.GetTopLeftItem DrawItem.box normalizedSelection false
          = some ⟨2, ⟨⟨2, 3⟩, ⟨0, 9⟩⟩⟩
      ∧ ∃ bbox it, SELECTION.GetBoundingBox DrawItem.box normalizedSelection = some bbox
          ∧ SELECTION.GetTopLeftItem DrawItem.box normalizedSelection false = some it
          ∧ bbox.GetLeft = (DrawItem.box it).GetLeft
          ∧ bbox.GetTop ≤ (DrawItem.box it).GetTop :=
  ⟨by decide, by decide, by decide, by decide,
    C12_bbox_agrees_with_top_left DrawItem.box normalizedSelection false
      (by decide) (by decide)⟩

/-- C13. The argument `onlyModules` of `GetTopLeftItem` has no effect: on every selection
the call with `true` and the call with `false` return the same item, and so do any two
values of the flag. -/
theorem C13_onlyModules_ignored {Item : Type} (bboxOf : Item → EDA_RECT)
    (sel : SELECTION Item) :
    SELECTION.GetTopLeftItem bboxOf sel true = SELECTION.GetTopLeftItem bboxOf sel false
      ∧ ∀ onlyModules onlyModules' : Bool,
          SELECTION.GetTopLeftItem bboxOf sel onlyModules
            = SELECTION.GetTopLeftItem bboxOf sel onlyModules' :=
  ⟨rfl, fun _ _ => rfl⟩

/-- C14. Marker setters change only their own field: `SetMarkerType` leaves the position,
the excluded flag, the scaling factor, the shape bounding box and the report item as they
were, `SetExcluded` leaves the position, the marker type, the scaling factor, the shape
bounding box and the report item as they were, and the two setters commute. -/
theorem C14_marker_setters_frame {RC_ITEM : Type} (m : MARKER_BASE RC_ITEM)
    (t : MARKER_BASE.TYPEMARKER) (b : Bool) :
    (m.SetMarkerType t
        = ⟨m.m_Pos, t, m.m_excluded, m.m_rcItem, m.m_scalingFactor, m.m_shapeBoundingBox⟩
      ∧ (m.SetMarkerType t).GetPos = m.GetPos
      ∧ (m.SetMarkerType t).IsExcluded = m.IsExcluded
      ∧ (m.SetMarkerType t).MarkerScale = m.MarkerScale
      ∧ (m.SetMarkerType t).m_shapeBoundingBox = m.m_shapeBoundingBox
      ∧ (m.SetMarkerType t).GetRCItem = m.GetRCItem)
    ∧ (m.SetExcluded b
        = ⟨m.m_Pos, m.m_markerType, b, m.m_rcItem, m.m_scalingFactor, m.m_shapeBoundingBox⟩
      ∧ (m.SetExcluded b).GetPos = m.GetPos
      ∧ (m.SetExcluded b).GetMarkerType = m.GetMarkerType
      ∧ (m.SetExcluded b).MarkerScale = m.MarkerScale
      ∧ (m.SetExcluded b).m_shapeBoundingBox = m.m_shapeBoundingBox
      ∧ (m.SetExcluded b).GetRCItem = m.GetRCItem)
    ∧ (m.SetMarkerType t).SetExcluded b = (m.SetExcluded b).SetMarkerType t :=
  ⟨⟨rfl, rfl, rfl, rfl, rfl, rfl⟩, ⟨rfl, rfl, rfl, rfl, rfl, rfl⟩, rfl⟩
